import Mathlib

/-!
Verification of the event-summary pipeline.

This file gives a shallow embedding of the core logic of the repository:

* `scripts/digest-worker.ts` — stay segmentation (`aggregateLocationEvents`),
  digest message construction (`buildDigestMessage`), digest generation
  (`generateDigest`) and the outbound wire body (`buildOpenClawPayload`);
* `src/validation.js` — the envelope validator (`validateEventEnvelope`);
* the `POST /events/process` handler of `src/server.js` (`markProcessed`).

Modelling conventions:

* timestamps (`ts` strings in the source) are modelled as epoch
  milliseconds (`Int`) wherever the source consumes them through
  `new Date(s).getTime()`; the one place the source compares the raw ISO
  strings themselves — the range-versus-arrival branch of
  `buildDigestMessage` — is modelled at string level (`StaySegmentStr`,
  `buildDigestMessage` over string segments, with the host date parser as
  the explicit oracle `getTime`), and `buildDigestMessageMs` is its
  instant-level projection used inside `generateDigest`;
* the worker only reads `payload.event` and `payload.place_id` from an
  event payload, so the payload is embedded as exactly those two fields;
* `crypto.randomUUID()` and the host timezone used by `Date.getHours` /
  `Date.getMinutes` are modelled as explicit parameters (`uuid`, `tz`);
* the stable JavaScript `Array.prototype.sort` with comparator
  `(a, b) => ts a - ts b` is modelled by the stable `List.insertionSort`
  under the relation `ts a ≤ ts b`;
* the in-place mutation of the most recently pushed open segment is
  modelled by a scan state that keeps the tracked open segment (`cur`)
  out of the emitted list until it is closed, abandoned or the scan ends;
  `before` holds the segments pushed before the tracked one and `after`
  the segments pushed after it, so the produced array is
  `before ++ cur.toList ++ after` at every step.
-/

namespace EventSummary

/-- Event envelope as consumed by the digest worker (`RawEvent` in
`scripts/digest-worker.ts`); `ts` is modelled as epoch milliseconds and the
payload as the two fields the worker reads. -/
structure RawEvent where
  event_id : String
  type : String
  ts : Int
  payload_event : String
  payload_place_id : String
deriving DecidableEq

/-- Structure `StaySegment` of `scripts/digest-worker.ts`. -/
structure StaySegment where
  place_id : String
  enter_at : Int
  exit_at : Option Int
  duration_min : Option Int
deriving DecidableEq

/-- Rounding `Math.round((exitTime - enterTime) / 60000)`: JavaScript `Math.round x`
is `⌊x + 1/2⌋`, so on the millisecond difference it is
`⌊(ms + 30000) / 60000⌋` with floor division. -/
def roundMinutes (ms : Int) : Int :=
  Int.fdiv (ms + 30000) 60000

/-- Closing a segment at time `t`: sets `exit_at` and computes
`duration_min`, as in the `enter` and matching-`exit` branches of
`aggregateLocationEvents`. -/
def closeSegment (c : StaySegment) (t : Int) : StaySegment :=
  { c with exit_at := some t, duration_min := some (roundMinutes (t - c.enter_at)) }

/-- Scan state of the `for` loop of `aggregateLocationEvents`: the segments
array split around the tracked open segment. `before` are the segments
pushed before the tracked one, `cur` the tracked segment
(`currentSegment`), `after` the segments pushed after it while it stayed
tracked. -/
structure ScanState where
  before : List StaySegment
  cur : Option StaySegment
  after : List StaySegment
deriving DecidableEq

/-- The segments array represented by a scan state. -/
def viewSegments (st : ScanState) : List StaySegment :=
  st.before ++ st.cur.toList ++ st.after

/-- Initial scan state: empty array, `currentSegment = null`. -/
def initState : ScanState := ⟨[], none, []⟩

/-- One iteration of the `for` loop of `aggregateLocationEvents`
(the `switch (payload.event)` statement). -/
def stepEvent (st : ScanState) (e : RawEvent) : ScanState :=
  if e.payload_event = "enter" then
    let fresh : StaySegment := ⟨e.payload_place_id, e.ts, none, none⟩
    match st.cur with
    | some c =>
        let c := if c.exit_at = none then closeSegment c e.ts else c
        ⟨st.before ++ c :: st.after, some fresh, []⟩
    | none => ⟨st.before ++ st.after, some fresh, []⟩
  else if e.payload_event = "dwell" then
    match st.cur with
    | some c =>
        if c.place_id = e.payload_place_id then st
        else ⟨st.before ++ c :: st.after, some ⟨e.payload_place_id, e.ts, none, none⟩, []⟩
    | none => ⟨st.before ++ st.after, some ⟨e.payload_place_id, e.ts, none, none⟩, []⟩
  else if e.payload_event = "exit" then
    match st.cur with
    | some c =>
        if c.place_id = e.payload_place_id then
          ⟨st.before ++ closeSegment c e.ts :: st.after, none, []⟩
        else ⟨st.before, some c, st.after ++ [⟨e.payload_place_id, e.ts, some e.ts, some 0⟩]⟩
    | none => ⟨st.before, none, st.after ++ [⟨e.payload_place_id, e.ts, some e.ts, some 0⟩]⟩
  else st

/-- Timestamp order used by the worker's sort comparator
`(a, b) => new Date(a.ts).getTime() - new Date(b.ts).getTime()`. -/
def tsLe (a b : RawEvent) : Prop := a.ts ≤ b.ts

instance : DecidableRel tsLe := fun a b => inferInstanceAs (Decidable (a.ts ≤ b.ts))

instance : IsTotal RawEvent tsLe := ⟨fun a b => Int.le_total a.ts b.ts⟩

instance : IsTrans RawEvent tsLe := ⟨fun _ _ _ h₁ h₂ => le_trans h₁ h₂⟩

/-- Models `events.filter(e => e.type === "location").sort(byTs)`: the stable
JavaScript sort is modelled by the stable insertion sort. -/
def locationEventsOf (events : List RawEvent) : List RawEvent :=
  (events.filter fun e => e.type == "location").insertionSort tsLe

/-- Result record of `aggregateLocationEvents`. -/
structure AggResult where
  segments : List StaySegment
  eventIds : List String
deriving DecidableEq

/-- The final state of the `for` loop of `aggregateLocationEvents`. -/
def scanLocation (events : List RawEvent) : ScanState :=
  (locationEventsOf events).foldl stepEvent initState

/-- Function `aggregateLocationEvents` of `scripts/digest-worker.ts`. -/
def aggregateLocationEvents (events : List RawEvent) : AggResult :=
  let locationEvents := locationEventsOf events
  if locationEvents.isEmpty then ⟨[], []⟩
  else ⟨viewSegments (scanLocation events), locationEvents.map (·.event_id)⟩

/-- Left-pad to two digits: `.toString().padStart(2, "0")` for a value in
`0..59`. -/
def pad2 (n : Int) : String :=
  if n < 10 then "0" ++ toString n else toString n

/-- Function `formatTime` of `scripts/digest-worker.ts`: `d.getHours()` and
`d.getMinutes()` read the wall clock of the host timezone, modelled by the
explicit offset `tz` in minutes. -/
def formatTime (tz : Int) (ts : Int) : String :=
  let localMs := ts + tz * 60000
  let h := Int.emod (Int.fdiv localMs 3600000) 24
  let m := Int.emod (Int.fdiv localMs 60000) 60
  pad2 h ++ ":" ++ pad2 m

/-- Instant-level projection of `buildDigestMessage` of
`scripts/digest-worker.ts`, over instant-timestamped segments: the
range-versus-arrival branch compares the parsed instants, whereas the
source compares the raw ISO strings (`seg.exit_at !== seg.enter_at`).
This projection is what `generateDigest` composes with the instant-level
aggregation; none of its verified properties involve the message text.
The string-faithful builder is `buildDigestMessage` below, and
`buildDigestMessage_agrees_ms` states exactly when the two coincide. -/
def buildDigestMessageMs (tz : Int) (segments : List StaySegment) : String :=
  if segments.isEmpty then "[LocationDigest] イベントなし"
  else
    let parts := segments.map fun seg =>
      let enter := formatTime tz seg.enter_at
      match seg.exit_at with
      | some x =>
          if x ≠ seg.enter_at then enter ++ "-" ++ formatTime tz x ++ " " ++ seg.place_id
          else enter ++ " " ++ seg.place_id ++ "到着"
      | none => enter ++ " " ++ seg.place_id ++ "到着"
    "[LocationDigest] " ++ String.intercalate " → " parts

/-- Stay segment exactly as `aggregateLocationEvents` stores it: the
`enter_at` and `exit_at` fields keep the raw ISO timestamp strings of the
events (`event.ts`). -/
structure StaySegmentStr where
  place_id : String
  enter_at : String
  exit_at : Option String
  duration_min : Option Int
deriving DecidableEq

/-- Function `formatTime` of `scripts/digest-worker.ts` on an ISO string:
`new Date(isoStr)` parses through the host date parser, modelled by the
explicit oracle `getTime`, and the hour and minute are read at the host
timezone offset `tz`. -/
def formatTimeStr (getTime : String → Int) (tz : Int) (s : String) : String :=
  formatTime tz (getTime s)

/-- Function `buildDigestMessage` of `scripts/digest-worker.ts`, at string
level: segments carry the raw ISO timestamp strings exactly as the source
stores them, and the branch `seg.exit_at && seg.exit_at !== seg.enter_at`
is JavaScript truthiness (non-null and non-empty) together with strict
string inequality of the raw timestamps. -/
def buildDigestMessage (getTime : String → Int) (tz : Int)
    (segments : List StaySegmentStr) : String :=
  if segments.isEmpty then "[LocationDigest] イベントなし"
  else
    let parts := segments.map fun seg =>
      let enter := formatTimeStr getTime tz seg.enter_at
      match seg.exit_at with
      | some x =>
          if x ≠ "" ∧ x ≠ seg.enter_at then
            enter ++ "-" ++ formatTimeStr getTime tz x ++ " " ++ seg.place_id
          else enter ++ " " ++ seg.place_id ++ "到着"
      | none => enter ++ " " ++ seg.place_id ++ "到着"
    "[LocationDigest] " ++ String.intercalate " → " parts

/-- Digest payload of `DigestResult` in `scripts/digest-worker.ts`
(`type` is the constant `"location"` and is omitted). -/
structure DigestPayload where
  segments : List StaySegment
  period_start : Int
  period_end : Int
  event_ids : List String
deriving DecidableEq

/-- Structure `DigestResult` of `scripts/digest-worker.ts`. -/
structure DigestResult where
  digest_id : String
  message : String
  payload : DigestPayload
deriving DecidableEq

/-- Models `Math.min(...timestamps)` on a nonempty list; the empty case is
unreachable behind the `events.length === 0` guard. -/
def listMin : List Int → Int
  | [] => 0
  | t :: r => r.foldl min t

/-- Models `Math.max(...timestamps)` on a nonempty list; the empty case is
unreachable behind the `events.length === 0` guard. -/
def listMax : List Int → Int
  | [] => 0
  | t :: r => r.foldl max t

/-- Function `generateDigest` of `scripts/digest-worker.ts`; `uuid` stands for the
`crypto.randomUUID()` result and `tz` for the host timezone offset. -/
def generateDigest (uuid : String) (tz : Int) (events : List RawEvent) :
    Option DigestResult :=
  if events.isEmpty then none
  else
    let allEventIds := events.map (·.event_id)
    let segments := (aggregateLocationEvents events).segments
    let nonLocationEvents := events.filter fun e => e.type != "location"
    let emailCount := (nonLocationEvents.filter fun e => e.type == "email").length
    let todoCount := (nonLocationEvents.filter fun e => e.type == "todo").length
    let vitalCount := (nonLocationEvents.filter fun e => e.type == "vital").length
    let nonLocationSummaryParts :=
      (if emailCount > 0 then ["メール" ++ toString emailCount ++ "件"] else []) ++
      (if todoCount > 0 then ["タスク変更" ++ toString todoCount ++ "件"] else []) ++
      (if vitalCount > 0 then ["バイタル" ++ toString vitalCount ++ "件"] else [])
    let locationMessage := buildDigestMessageMs tz segments
    let message :=
      if nonLocationSummaryParts.isEmpty then locationMessage
      else locationMessage ++ " | " ++ String.intercalate ", " nonLocationSummaryParts
    let timestamps := events.map (·.ts)
    some
      { digest_id := uuid
        message := message
        payload :=
          { segments := segments
            period_start := listMin timestamps
            period_end := listMax timestamps
            event_ids := allEventIds } }

/-- Request body built by `buildOpenClawPayload`. -/
structure OpenClawPayload where
  message : String
  name : String
  wakeMode : String
  deliver : Bool
  channel : String
deriving DecidableEq

/-- Function `buildOpenClawPayload` of `scripts/digest-worker.ts`. -/
def buildOpenClawPayload (digest : DigestResult) : OpenClawPayload :=
  { message := "[digest:" ++ digest.digest_id ++ "] " ++ digest.message
    name := "EventDigest"
    wakeMode := "now"
    deliver := true
    channel := "last" }

/-! ## Spec-side definitions (written from the words of the spec, for the
refinement claims) -/

/-- Spec §4.3: rounding of the minute fraction half away from zero, on a
duration given in milliseconds. -/
def roundHalfAwayMin (ms : Int) : Int :=
  if 0 ≤ ms then Int.fdiv (ms + 30000) 60000
  else -(Int.fdiv (-ms + 30000) 60000)

/-- Invariant predicate behind spec §3: a closed segment exits no earlier
than it enters and carries the rounded duration of the stay. -/
def segDurOK (s : StaySegment) : Prop :=
  ∀ t, s.exit_at = some t →
    s.enter_at ≤ t ∧ s.duration_min = some (roundMinutes (t - s.enter_at))

/-- Spec §4.4 step 1, amended to the string level the source actually
works at: a segment renders as a time range exactly when its exit
timestamp is present, non-empty and different from the enter timestamp as
a raw string; every other segment renders as an arrival. -/
def renderSegmentSpecStr (getTime : String → Int) (tz : Int)
    (seg : StaySegmentStr) : String :=
  if seg.exit_at ≠ none ∧ seg.exit_at ≠ some "" ∧ seg.exit_at ≠ some seg.enter_at then
    formatTimeStr getTime tz seg.enter_at ++ "-" ++
      formatTimeStr getTime tz (seg.exit_at.getD "") ++ " " ++ seg.place_id
  else formatTimeStr getTime tz seg.enter_at ++ " " ++ seg.place_id ++ "到着"

/-- Spec §4.4 steps 1-2 at string level: the location portion of the
digest message. -/
def digestMessageSpecStr (getTime : String → Int) (tz : Int)
    (segments : List StaySegmentStr) : String :=
  if segments = [] then "[LocationDigest] イベントなし"
  else "[LocationDigest] " ++
    String.intercalate " → " (segments.map (renderSegmentSpecStr getTime tz))

/-! ## Envelope validator (`src/validation.js`) -/

/-- A JavaScript value as the validator can receive it; `undefined` is the
result of reading an absent object field. Numbers are modelled as integers:
the validator only ever branches on the constructor of a number, never on
its value. -/
inductive JsValue where
  | null
  | undefined
  | bool (b : Bool)
  | num (n : Int)
  | str (s : String)
  | arr (xs : List JsValue)
  | obj (fields : List (String × JsValue))

mutual

/-- ECMAScript `String(v)` for the values in the model: strings unchanged,
numbers in decimal, `true` / `false` / `null` / `undefined` by name, plain
objects as `"[object Object]"` and arrays as their elements joined by `","`
with `null` and `undefined` elements rendered empty. -/
def jsToString : JsValue → String
  | .str s => s
  | .num n => toString n
  | .bool true => "true"
  | .bool false => "false"
  | .null => "null"
  | .undefined => "undefined"
  | .obj _ => "[object Object]"
  | .arr xs => jsArrToString xs
termination_by structural v => v

/-- Models `Array.prototype.toString`, that is `join(",")` where `null` and
`undefined` elements become the empty string. -/
def jsArrToString : List JsValue → String
  | [] => ""
  | [.null] => ""
  | [.undefined] => ""
  | [v] => jsToString v
  | .null :: rest => "," ++ jsArrToString rest
  | .undefined :: rest => "," ++ jsArrToString rest
  | v :: rest => jsToString v ++ "," ++ jsArrToString rest
termination_by structural l => l

end

/-- Property read `fields[k]` on a plain object: the last binding of the
key wins, an absent key reads as `undefined`. -/
def lookupField (fields : List (String × JsValue)) (k : String) : JsValue :=
  fields.foldl (fun acc p => if p.1 == k then p.2 else acc) .undefined

/-- Reads `body.k` where the validator has already established that `body` is a
plain object; reading a field of anything else is modelled as `undefined`. -/
def getField : JsValue → String → JsValue
  | .obj fields, k => lookupField fields k
  | _, _ => .undefined

/-- Hexadecimal digit class of `UUID_V4_REGEX` under the `/i` flag. -/
def isHexDigit (c : Char) : Bool :=
  ('0' ≤ c && c ≤ '9') || ('a' ≤ c && c ≤ 'f') || ('A' ≤ c && c ≤ 'F')

/-- Models `UUID_V4_REGEX.test` on a string: 36 characters shaped
`8 hex, '-', 4 hex, '-', [1-5], 3 hex, '-', [89ab], 3 hex, '-', 12 hex`,
case-insensitive. -/
def uuidV4Test (s : String) : Bool :=
  let cs := s.toList
  cs.length == 36 &&
  ((List.range 36).all fun i =>
    let c := cs.getD i ' '
    if i == 8 || i == 13 || i == 18 || i == 23 then c == '-'
    else if i == 14 then '1' ≤ c && c ≤ '5'
    else if i == 19 then
      c == '8' || c == '9' || c == 'a' || c == 'b' || c == 'A' || c == 'B'
    else isHexDigit c)

/-- The string the regex test actually receives for `event_id`:
the nullish coalescing replaces `null` and `undefined` by the empty
string, and `RegExp.test` coerces every other value with `String(·)`. -/
def uuidTestInput : JsValue → String
  | .null => ""
  | .undefined => ""
  | v => jsToString v

/-- Function `isIsoDateString` of `src/validation.js`: a string whose
`new Date(value).getTime()` is not `NaN`; the host date parser is the
explicit oracle `dateParses`. -/
def isIsoDateString (dateParses : String → Bool) : JsValue → Bool
  | .str s => dateParses s
  | _ => false

/-- Whitespace stripped by `String.prototype.trim`: the ECMAScript
WhiteSpace and LineTerminator code points — space, tab, LF, VT, FF, CR,
NBSP, BOM, the line and paragraph separators and the Unicode space
separators. -/
def jsWhitespace (c : Char) : Bool :=
  c == ' ' || c == '\t' || c == '\n' || c == '\x0B' || c == '\x0C' ||
  c == '\r' || c == '\xA0' || c == '\u1680' ||
  ('\u2000' ≤ c && c ≤ '\u200A') || c == '\u2028' || c == '\u2029' ||
  c == '\u202F' || c == '\u205F' || c == '\u3000' || c == '\uFEFF'

/-- Models `String.prototype.trim`: strips leading and trailing ECMAScript
whitespace, modelled on the character list. -/
def jsTrim (s : String) : String :=
  ⟨((s.data.dropWhile jsWhitespace).reverse.dropWhile jsWhitespace).reverse⟩

/-- Checks that the value is a string whose trimmed length is nonzero. -/
def isNonBlankString : JsValue → Bool
  | .str s => (jsTrim s).length != 0
  | _ => false

/-- Checks for a plain object: truthy, of object type, and not an array. -/
def isPlainObject : JsValue → Bool
  | .obj _ => true
  | _ => false

/-- Function `validateEventEnvelope` of `src/validation.js`, with the host date
parser passed explicitly. The function is total: malformed input yields a
violation list, never a fault. -/
def validateEventEnvelope (dateParses : String → Bool) (body : JsValue) :
    List String :=
  match body with
  | .obj fields =>
      (if !uuidV4Test (uuidTestInput (lookupField fields "event_id")) then
        ["event_id must be a valid UUID."] else []) ++
      (if !isNonBlankString (lookupField fields "type") then
        ["type must be a non-empty string."] else []) ++
      (if !isIsoDateString dateParses (lookupField fields "ts") then
        ["ts must be a valid ISO-8601 timestamp string."] else []) ++
      (if !isPlainObject (lookupField fields "payload") then
        ["payload must be a JSON object."] else []) ++
      (if lookupField fields "device_id" matches .undefined | .str _ then []
       else ["device_id must be a string when provided."]) ++
      (if lookupField fields "meta" matches .undefined | .obj _ then []
       else ["meta must be an object when provided."])
  | _ => ["Request body must be a JSON object."]

/-- The spec reading of the `event_id` rule: the field is a UUID-shaped
string. (The source applies the regex to the string coercion of the field
instead.) -/
def eventIdIsUuidString : JsValue → Bool
  | .str s => uuidV4Test s
  | _ => false

/-- The envelope rules of spec §4.1, with the `event_id` rule read on the
string coercion the source performs. -/
def envelopeRulesOk (dateParses : String → Bool) (body : JsValue) : Bool :=
  isPlainObject body &&
  uuidV4Test (uuidTestInput (getField body "event_id")) &&
  isNonBlankString (getField body "type") &&
  isIsoDateString dateParses (getField body "ts") &&
  isPlainObject (getField body "payload") &&
  (getField body "device_id" matches .undefined | .str _) &&
  (getField body "meta" matches .undefined | .obj _)

/-! ## Mark-processed (`POST /events/process` of `src/server.js`) -/

/-- A stored event row, restricted to the two columns the handler touches:
`eventId` and the nullable `processedAt`. -/
structure EventRow where
  event_id : String
  processed_at : Option Int
deriving DecidableEq

/-- The rows selected by `updateMany`:
`eventId ∈ event_ids ∧ processedAt IS NULL`. -/
def pendingIn (event_ids : List String) (r : EventRow) : Prop :=
  r.event_id ∈ event_ids ∧ r.processed_at = none

instance (event_ids : List String) (r : EventRow) :
    Decidable (pendingIn event_ids r) :=
  inferInstanceAs (Decidable (_ ∧ _))

/-- The `POST /events/process` handler:
`updateMany({where: {eventId in event_ids, processedAt: null}, data:
{processedAt: now}})` over the store, returning the new store and the
reported `processed_count`. -/
def markProcessed (event_ids : List String) (now : Int) (store : List EventRow) :
    List EventRow × Nat :=
  (store.map fun r =>
      if pendingIn event_ids r then { r with processed_at := some now } else r,
   store.countP fun r => decide (pendingIn event_ids r))

/-- Host date parser restricted to the two ISO strings of the C6
counterexample: both denote the same instant, 2025-02-23T01:00:00Z, whose
epoch millisecond is 1740272400000. -/
def cexGetTime : String → Int := fun s =>
  if s == "2025-02-23T10:00:00+09:00" || s == "2025-02-23T01:00:00Z" then
    1740272400000
  else 0

/-- A request body whose `event_id` is a one-element array holding a
UUID-shaped string, with every other field well-formed. -/
def smuggledBody : JsValue :=
  .obj [("event_id", .arr [.str "550e8400-e29b-41d4-a716-446655440000"]),
        ("type", .str "location"),
        ("ts", .str "2025-02-23T10:00:00+09:00"),
        ("payload", .obj [])]

/-- Sanity: the repository test "creates segment from enter + exit"
(30 minutes at `home`). -/
example :
    aggregateLocationEvents
      [⟨"aaa-1", "location", 0, "enter", "home"⟩,
       ⟨"aaa-2", "location", 1800000, "exit", "home"⟩] =
      ⟨[⟨"home", 0, some 1800000, some 30⟩], ["aaa-1", "aaa-2"]⟩ := by decide

/-- Sanity: enter without exit stays open. -/
example :
    aggregateLocationEvents [⟨"b1", "location", 0, "enter", "office"⟩] =
      ⟨[⟨"office", 0, none, none⟩], ["b1"]⟩ := by decide

/-- Sanity: enter → dwell (same place) → exit collapses to one segment. -/
example :
    aggregateLocationEvents
      [⟨"c1", "location", 0, "enter", "office"⟩,
       ⟨"c2", "location", 900000, "dwell", "office"⟩,
       ⟨"c3", "location", 1800000, "exit", "office"⟩] =
      ⟨[⟨"office", 0, some 1800000, some 30⟩], ["c1", "c2", "c3"]⟩ := by decide

/-- Sanity: a dwell at a different place abandons the open segment without
closing it, and an unmatched exit appends a degenerate segment after the
still-open one — the output holds two open segments and the first open
segment is not last. -/
example :
    aggregateLocationEvents
      [⟨"d1", "location", 0, "enter", "home"⟩,
       ⟨"d2", "location", 600000, "dwell", "office"⟩,
       ⟨"d3", "location", 1200000, "exit", "cafe"⟩] =
      ⟨[⟨"home", 0, none, none⟩, ⟨"office", 600000, none, none⟩,
        ⟨"cafe", 1200000, some 1200000, some 0⟩],
       ["d1", "d2", "d3"]⟩ := by decide

/-! ## Helper lemmas -/

/-- A still-open segment satisfies the closed-segment invariant vacuously. -/
lemma segDurOK_of_open (s : StaySegment) (h : s.exit_at = none) : segDurOK s := by
  intro t ht
  rw [h] at ht
  cases ht

/-- Closing a segment no earlier than its entry yields a segment satisfying
the duration invariant. -/
lemma segDurOK_close (c : StaySegment) (t : Int) (h : c.enter_at ≤ t) :
    segDurOK (closeSegment c t) := by
  intro u hu
  simp only [closeSegment] at hu ⊢
  obtain rfl : t = u := by simpa using hu
  exact ⟨h, rfl⟩

/-- Computation: `roundMinutes 0` is `0`. -/
lemma roundMinutes_zero : roundMinutes 0 = 0 := by decide

/-- A degenerate instant segment satisfies the duration invariant. -/
lemma segDurOK_degenerate (P : String) (t : Int) :
    segDurOK ⟨P, t, some t, some 0⟩ := by
  intro u hu
  obtain rfl : t = u := by simpa using hu
  refine ⟨le_refl _, ?_⟩
  simp [roundMinutes_zero]

/-! ## C9: outbound wire body -/

/-- C9: for every digest, `buildOpenClawPayload` returns exactly the wire
body `{message: "[digest:<digest_id>] <message>", name: "EventDigest",
wakeMode: "now", deliver: true, channel: "last"}`, so the outgoing message
always embeds the digest identifier. -/
theorem buildOpenClawPayload_wire (d : DigestResult) :
    buildOpenClawPayload d =
      { message := "[digest:" ++ d.digest_id ++ "] " ++ d.message
        name := "EventDigest"
        wakeMode := "now"
        deliver := true
        channel := "last" } := rfl

/-! ## C6: digest message rendering -/

/-- Lemma: the per-segment rendering of the string-level builder agrees
with the instant-level rendering when the exit string is non-empty and
equals the enter string exactly when their parsed instants coincide. -/
lemma renderStr_eq_ms (getTime : String → Int) (tz : Int) (seg : StaySegmentStr)
    (h : ∀ x, seg.exit_at = some x →
      x ≠ "" ∧ (x = seg.enter_at ↔ getTime x = getTime seg.enter_at)) :
    (match seg.exit_at with
     | some x =>
         if x ≠ "" ∧ x ≠ seg.enter_at then
           formatTimeStr getTime tz seg.enter_at ++ "-" ++
             formatTimeStr getTime tz x ++ " " ++ seg.place_id
         else formatTimeStr getTime tz seg.enter_at ++ " " ++ seg.place_id ++ "到着"
     | none => formatTimeStr getTime tz seg.enter_at ++ " " ++ seg.place_id ++ "到着") =
    (match Option.map getTime seg.exit_at with
     | some x =>
         if x ≠ getTime seg.enter_at then
           formatTime tz (getTime seg.enter_at) ++ "-" ++
             formatTime tz x ++ " " ++ seg.place_id
         else formatTime tz (getTime seg.enter_at) ++ " " ++ seg.place_id ++ "到着"
     | none => formatTime tz (getTime seg.enter_at) ++ " " ++ seg.place_id ++ "到着") := by
  rcases hx : seg.exit_at with _ | x
  · simp [hx, formatTimeStr]
  · obtain ⟨hxne, hxiff⟩ := h x hx
    by_cases hxe : x = seg.enter_at
    · have hms := hxiff.mp hxe
      simp [hx, hxe, formatTimeStr, hms]
    · have hms : getTime x ≠ getTime seg.enter_at := fun hc => hxe (hxiff.mpr hc)
      simp [hx, hxe, hxne, formatTimeStr, hms]

/-- Lemma: when every closed segment has a non-empty exit string that
equals the enter string exactly when their parsed instants coincide, the
string-level `buildDigestMessage` agrees with its instant-level projection
`buildDigestMessageMs` (the abstraction `generateDigest` composes with);
outside that hypothesis the two can differ, as the C6 counterexample
shows. -/
lemma buildDigestMessage_agrees_ms (getTime : String → Int) (tz : Int)
    (segments : List StaySegmentStr)
    (h : ∀ s ∈ segments, ∀ x, s.exit_at = some x →
      x ≠ "" ∧ (x = s.enter_at ↔ getTime x = getTime s.enter_at)) :
    buildDigestMessage getTime tz segments =
      buildDigestMessageMs tz (segments.map fun s =>
        ⟨s.place_id, getTime s.enter_at, s.exit_at.map getTime, s.duration_min⟩) := by
  unfold buildDigestMessage buildDigestMessageMs
  cases segments with
  | nil => simp
  | cons s rest =>
      simp only [List.isEmpty_cons, Bool.false_eq_true, if_false, List.map_cons,
        List.map_map, reduceCtorEq, ite_false, List.isEmpty_eq_true]
      congr 1
      congr 1
      congr 1
      · exact renderStr_eq_ms getTime tz s fun x hx => h s (by simp) x hx
      · refine List.map_congr_left ?_
        intro seg hmem
        simp only [Function.comp_apply]
        exact renderStr_eq_ms getTime tz seg
          fun x hx => h seg (List.mem_cons_of_mem s hmem) x hx

/-- Counterexample to C6 as stated: a zero-span closed segment — its enter
and exit strings denote the same instant in two ISO formats, so its
duration is zero — renders as the time range `"10:00-10:00 home"`, not as
the arrival form the claim requires for zero-duration segments, because
the source compares the raw timestamp strings. -/
theorem buildDigestMessage_zero_span_range :
    cexGetTime "2025-02-23T01:00:00Z" = cexGetTime "2025-02-23T10:00:00+09:00" ∧
    buildDigestMessage cexGetTime 540
        [⟨"home", "2025-02-23T10:00:00+09:00", some "2025-02-23T01:00:00Z", some 0⟩] =
      "[LocationDigest] 10:00-10:00 home" := by
  constructor
  · rfl
  · decide

/-- C6 (amended): `buildDigestMessage` renders a segment as a time range
exactly when its exit timestamp is present, non-empty and different from
the enter timestamp as a raw string — hence a zero-span close whose exit
string differs from its enter string (equal instants in different ISO
formats) renders as a range, not as an arrival — and renders every other
segment as `"<enter HH:MM> <place_id>到着"`; the renderings are joined
with `" → "` after the prefix `"[LocationDigest] "`, and the empty
segment list returns exactly the literal `"[LocationDigest] イベントなし"`. -/
theorem buildDigestMessage_renders_spec (getTime : String → Int) (tz : Int)
    (segments : List StaySegmentStr) :
    buildDigestMessage getTime tz segments =
      digestMessageSpecStr getTime tz segments ∧
    buildDigestMessage getTime tz [] = "[LocationDigest] イベントなし" := by
  refine ⟨?_, rfl⟩
  unfold buildDigestMessage digestMessageSpecStr
  cases segments with
  | nil => simp
  | cons s rest =>
      simp only [List.isEmpty_cons, Bool.false_eq_true, if_false, reduceCtorEq,
        ite_false, ne_eq]
      congr 1
      congr 1
      apply List.map_congr_left
      intro seg _
      rcases hx : seg.exit_at with _ | x
      · simp [renderSegmentSpecStr, hx]
      · by_cases hxe : x = ""
        · simp [renderSegmentSpecStr, hx, hxe]
        · by_cases hxe2 : x = seg.enter_at
          · simp [renderSegmentSpecStr, hx, hxe, hxe2]
          · simp [renderSegmentSpecStr, hx, hxe, hxe2]

/-! ## C4: the enter transition -/

/-- C4: an `enter(P, t)` event first closes the currently open segment
(setting `exit_at = t` and computing `duration_min`), then appends the new
open segment `{place_id: P, enter_at: t, exit_at: null, duration_min:
null}` — with no condition on `P`, so this also happens when `P` is the
place of the open segment; with no open segment it only appends. -/
theorem stepEvent_enter_spec (st : ScanState) (e : RawEvent)
    (he : e.payload_event = "enter") :
    (∀ c, st.cur = some c → c.exit_at = none →
      stepEvent st e =
        ⟨st.before ++ closeSegment c e.ts :: st.after,
         some ⟨e.payload_place_id, e.ts, none, none⟩, []⟩ ∧
      (closeSegment c e.ts).exit_at = some e.ts ∧
      (closeSegment c e.ts).duration_min = some (roundMinutes (e.ts - c.enter_at)) ∧
      viewSegments (stepEvent st e) =
        (st.before ++ closeSegment c e.ts :: st.after) ++
          [⟨e.payload_place_id, e.ts, none, none⟩]) ∧
    (st.cur = none →
      stepEvent st e =
        ⟨st.before ++ st.after, some ⟨e.payload_place_id, e.ts, none, none⟩, []⟩ ∧
      viewSegments (stepEvent st e) =
        (st.before ++ st.after) ++ [⟨e.payload_place_id, e.ts, none, none⟩]) := by
  obtain ⟨b, cur, a⟩ := st
  constructor
  · rintro c rfl hopen
    simp [stepEvent, he, hopen, viewSegments, closeSegment]
  · rintro rfl
    simp [stepEvent, he, viewSegments]

/-- Witness for C4: entering `home` at `t = 60000` while a segment at
`home` itself is open closes the open segment (duration one minute) and
still appends a fresh open segment for `home`. -/
theorem stepEvent_enter_spec_witness :
    (⟨"w1", "location", 60000, "enter", "home"⟩ : RawEvent).payload_event = "enter" ∧
    (⟨[], some ⟨"home", 0, none, none⟩, []⟩ : ScanState).cur = some ⟨"home", 0, none, none⟩ ∧
    (⟨"home", 0, none, none⟩ : StaySegment).exit_at = none ∧
    stepEvent ⟨[], some ⟨"home", 0, none, none⟩, []⟩ ⟨"w1", "location", 60000, "enter", "home"⟩ =
      ⟨[⟨"home", 0, some 60000, some 1⟩], some ⟨"home", 60000, none, none⟩, []⟩ :=
  ⟨rfl, rfl, rfl,
    ((stepEvent_enter_spec ⟨[], some ⟨"home", 0, none, none⟩, []⟩
      ⟨"w1", "location", 60000, "enter", "home"⟩ rfl).1 ⟨"home", 0, none, none⟩ rfl rfl).1⟩

/-! ## C5: the exit transition -/

/-- C5: an `exit(P, t)` whose place matches the open segment closes it
(`exit_at = t`) and clears the open state; an `exit(P, t)` without a
matching open segment appends the degenerate instant segment
`{place_id: P, enter_at: t, exit_at: t, duration_min: 0}` and leaves the
open-segment state unchanged. -/
theorem stepEvent_exit_spec (st : ScanState) (e : RawEvent)
    (he : e.payload_event = "exit") :
    (∀ c, st.cur = some c → c.place_id = e.payload_place_id →
      stepEvent st e = ⟨st.before ++ closeSegment c e.ts :: st.after, none, []⟩) ∧
    (∀ c, st.cur = some c → c.place_id ≠ e.payload_place_id →
      stepEvent st e =
        ⟨st.before, some c,
         st.after ++ [⟨e.payload_place_id, e.ts, some e.ts, some 0⟩]⟩) ∧
    (st.cur = none →
      stepEvent st e =
        ⟨st.before, none,
         st.after ++ [⟨e.payload_place_id, e.ts, some e.ts, some 0⟩]⟩) := by
  obtain ⟨b, cur, a⟩ := st
  refine ⟨?_, ?_, ?_⟩
  · rintro c rfl hpl
    simp [stepEvent, he, hpl]
  · rintro c rfl hpl
    simp [stepEvent, he, hpl]
  · rintro rfl
    simp [stepEvent, he]

/-- Witness for C5: an exit at `cafe` with an open segment at `home`
appends a degenerate instant segment and keeps the `home` segment open;
an exit at `home` closes it. -/
theorem stepEvent_exit_spec_witness :
    (⟨"w2", "location", 120000, "exit", "cafe"⟩ : RawEvent).payload_event = "exit" ∧
    stepEvent ⟨[], some ⟨"home", 0, none, none⟩, []⟩ ⟨"w2", "location", 120000, "exit", "cafe"⟩ =
      ⟨[], some ⟨"home", 0, none, none⟩, [⟨"cafe", 120000, some 120000, some 0⟩]⟩ ∧
    stepEvent ⟨[], some ⟨"home", 0, none, none⟩, []⟩ ⟨"w3", "location", 120000, "exit", "home"⟩ =
      ⟨[⟨"home", 0, some 120000, some 2⟩], none, []⟩ :=
  ⟨rfl,
    (stepEvent_exit_spec ⟨[], some ⟨"home", 0, none, none⟩, []⟩
      ⟨"w2", "location", 120000, "exit", "cafe"⟩ rfl).2.1 ⟨"home", 0, none, none⟩ rfl
      (by decide),
    (stepEvent_exit_spec ⟨[], some ⟨"home", 0, none, none⟩, []⟩
      ⟨"w3", "location", 120000, "exit", "home"⟩ rfl).1 ⟨"home", 0, none, none⟩ rfl rfl⟩

/-! ## C1: digest coverage of the batch -/

lemma foldl_min_le_init : ∀ (l : List Int) (a : Int), l.foldl min a ≤ a := by
  intro l
  induction l with
  | nil => simp
  | cons x xs ih =>
      intro a
      simpa using le_trans (ih (min a x)) (min_le_left a x)

lemma foldl_min_le_mem : ∀ (l : List Int) (a t : Int), t ∈ l → l.foldl min a ≤ t := by
  intro l
  induction l with
  | nil => intro a t ht; cases ht
  | cons x xs ih =>
      intro a t ht
      rcases List.mem_cons.mp ht with rfl | ht
      · simpa using le_trans (foldl_min_le_init xs (min a t)) (min_le_right a t)
      · simpa using ih (min a x) t ht

lemma foldl_min_mem : ∀ (l : List Int) (a : Int), l.foldl min a = a ∨ l.foldl min a ∈ l := by
  intro l
  induction l with
  | nil => intro a; exact Or.inl rfl
  | cons x xs ih =>
      intro a
      rcases ih (min a x) with h | h
      · rcases min_choice a x with hm | hm
        · exact Or.inl (by simpa [hm] using h)
        · exact Or.inr (by simp [List.foldl_cons]; rw [h, hm]; exact Or.inl rfl)
      · exact Or.inr (List.mem_cons_of_mem x (by simpa using h))

lemma foldl_max_ge_init : ∀ (l : List Int) (a : Int), a ≤ l.foldl max a := by
  intro l
  induction l with
  | nil => simp
  | cons x xs ih =>
      intro a
      simpa using le_trans (le_max_left a x) (ih (max a x))

lemma foldl_max_ge_mem : ∀ (l : List Int) (a t : Int), t ∈ l → t ≤ l.foldl max a := by
  intro l
  induction l with
  | nil => intro a t ht; cases ht
  | cons x xs ih =>
      intro a t ht
      rcases List.mem_cons.mp ht with rfl | ht
      · simpa using le_trans (le_max_right a t) (foldl_max_ge_init xs (max a t))
      · simpa using ih (max a x) t ht

lemma foldl_max_mem : ∀ (l : List Int) (a : Int), l.foldl max a = a ∨ l.foldl max a ∈ l := by
  intro l
  induction l with
  | nil => intro a; exact Or.inl rfl
  | cons x xs ih =>
      intro a
      rcases ih (max a x) with h | h
      · rcases max_choice a x with hm | hm
        · exact Or.inl (by simpa [hm] using h)
        · exact Or.inr (by simp [List.foldl_cons]; rw [h, hm]; exact Or.inl rfl)
      · exact Or.inr (List.mem_cons_of_mem x (by simpa using h))

lemma listMin_le (l : List Int) (t : Int) (ht : t ∈ l) : listMin l ≤ t := by
  cases l with
  | nil => cases ht
  | cons a r =>
      rcases List.mem_cons.mp ht with rfl | ht
      · exact foldl_min_le_init r t
      · exact foldl_min_le_mem r a t ht

lemma listMin_mem (l : List Int) (h : l ≠ []) : listMin l ∈ l := by
  cases l with
  | nil => exact absurd rfl h
  | cons a r =>
      rcases foldl_min_mem r a with hm | hm
      · rw [listMin, hm]; exact List.mem_cons_self a r
      · exact List.mem_cons_of_mem a hm

lemma listMax_ge (l : List Int) (t : Int) (ht : t ∈ l) : t ≤ listMax l := by
  cases l with
  | nil => cases ht
  | cons a r =>
      rcases List.mem_cons.mp ht with rfl | ht
      · exact foldl_max_ge_init r t
      · exact foldl_max_ge_mem r a t ht

lemma listMax_mem (l : List Int) (h : l ≠ []) : listMax l ∈ l := by
  cases l with
  | nil => exact absurd rfl h
  | cons a r =>
      rcases foldl_max_mem r a with hm | hm
      · rw [listMax, hm]; exact List.mem_cons_self a r
      · exact List.mem_cons_of_mem a hm

/-- C1: for a non-empty batch `generateDigest` returns a digest whose
`payload.event_ids` is the list of `event_id` of every event of the batch
(all types), and whose `period_start` / `period_end` are the minimum /
maximum `ts` across the whole batch; for the empty batch it returns
`none`. -/
theorem generateDigest_spec (uuid : String) (tz : Int) (events : List RawEvent)
    (h : events ≠ []) :
    generateDigest uuid tz ([] : List RawEvent) = none ∧
    ∃ d, generateDigest uuid tz events = some d ∧
      d.payload.event_ids = events.map (·.event_id) ∧
      d.payload.period_start ∈ events.map (·.ts) ∧
      (∀ e ∈ events, d.payload.period_start ≤ e.ts) ∧
      d.payload.period_end ∈ events.map (·.ts) ∧
      (∀ e ∈ events, e.ts ≤ d.payload.period_end) := by
  have hne : events.isEmpty = false := by
    simpa [List.isEmpty_iff] using h
  refine ⟨rfl, ?_⟩
  refine ⟨_, by rw [generateDigest, hne]; rfl, rfl, ?_, ?_, ?_, ?_⟩
  · exact listMin_mem _ (by simpa using h)
  · intro e he
    exact listMin_le _ _ (List.mem_map_of_mem _ he)
  · exact listMax_mem _ (by simpa using h)
  · intro e he
    exact listMax_ge _ _ (List.mem_map_of_mem _ he)

/-- Witness for C1: a two-event batch (one location, one email) produces a
digest covering both ids with the min / max timestamps. -/
theorem generateDigest_spec_witness :
    ([⟨"e1", "location", 60000, "enter", "home"⟩,
      ⟨"e2", "email", 30000, "", ""⟩] : List RawEvent) ≠ [] ∧
    (generateDigest "u" 0 [⟨"e1", "location", 60000, "enter", "home"⟩,
      ⟨"e2", "email", 30000, "", ""⟩]).map
        (fun d => (d.payload.event_ids, d.payload.period_start, d.payload.period_end)) =
      some (["e1", "e2"], 30000, 60000) := by
  constructor
  · decide
  · obtain ⟨-, d, hd, hids, hminmem, hmin, hmaxmem, hmax⟩ :=
      generateDigest_spec "u" 0
        [⟨"e1", "location", 60000, "enter", "home"⟩, ⟨"e2", "email", 30000, "", ""⟩]
        (by decide)
    have h1 : d.payload.period_start = 30000 := by
      have h' := hmin ⟨"e2", "email", 30000, "", ""⟩ (by simp)
      simp at hminmem h'
      rcases hminmem with h | h <;> omega
    have h2 : d.payload.period_end = 60000 := by
      have h' := hmax ⟨"e1", "location", 60000, "enter", "home"⟩ (by simp)
      simp at hmaxmem h'
      rcases hmaxmem with h | h <;> omega
    rw [hd]
    show some (d.payload.event_ids, d.payload.period_start, d.payload.period_end) =
      some (["e1", "e2"], 30000, 60000)
    rw [hids, h1, h2]
    simp

/-! ## C3: duration invariant of closed segments -/

/-- One loop iteration preserves the duration invariant of emitted segments
and the entry-time bound of the tracked open segment, for an event no later
than every remaining event. -/
lemma step_preserves_durOK (st : ScanState) (e : RawEvent) (rest : List RawEvent)
    (hb : ∀ s ∈ st.before, segDurOK s) (ha : ∀ s ∈ st.after, segDurOK s)
    (hc : ∀ c, st.cur = some c →
      c.exit_at = none ∧ c.enter_at ≤ e.ts ∧ ∀ b ∈ rest, c.enter_at ≤ b.ts)
    (hrest : ∀ b ∈ rest, e.ts ≤ b.ts) :
    (∀ s ∈ (stepEvent st e).before, segDurOK s) ∧
    (∀ s ∈ (stepEvent st e).after, segDurOK s) ∧
    (∀ c, (stepEvent st e).cur = some c →
      c.exit_at = none ∧ ∀ b ∈ rest, c.enter_at ≤ b.ts) := by
  obtain ⟨bf, cur, af⟩ := st
  by_cases h1 : e.payload_event = "enter"
  · cases cur with
    | none =>
        simp only [stepEvent, h1, if_true]
        refine ⟨?_, by simp, ?_⟩
        · intro s hs
          rcases List.mem_append.mp hs with hs | hs
          · exact hb s hs
          · exact ha s hs
        · rintro c hc'
          obtain rfl : (⟨e.payload_place_id, e.ts, none, none⟩ : StaySegment) = c := by
            simpa using hc'
          exact ⟨rfl, hrest⟩
    | some c =>
        obtain ⟨hopen, hle, hbound⟩ := hc c rfl
        simp only [stepEvent, h1, if_true, hopen, if_pos]
        refine ⟨?_, by simp, ?_⟩
        · intro s hs
          rcases List.mem_append.mp hs with hs | hs
          · exact hb s hs
          · rcases List.mem_cons.mp hs with hs | hs
            · exact hs ▸ segDurOK_close c e.ts hle
            · exact ha s hs
        · rintro c' hc'
          obtain rfl : (⟨e.payload_place_id, e.ts, none, none⟩ : StaySegment) = c' := by
            simpa using hc'
          exact ⟨rfl, hrest⟩
  · by_cases h2 : e.payload_event = "dwell"
    · cases cur with
      | none =>
          simp only [stepEvent, h1, h2, if_true, if_false]
          refine ⟨?_, by simp, ?_⟩
          · intro s hs
            rcases List.mem_append.mp hs with hs | hs
            · exact hb s hs
            · exact ha s hs
          · rintro c hc'
            obtain rfl : (⟨e.payload_place_id, e.ts, none, none⟩ : StaySegment) = c := by
              simpa using hc'
            exact ⟨rfl, hrest⟩
      | some c =>
          obtain ⟨hopen, hle, hbound⟩ := hc c rfl
          by_cases hpl : c.place_id = e.payload_place_id
          · simp only [stepEvent, h1, h2, if_true, if_false, hpl, if_pos]
            exact ⟨hb, ha, fun c' hc' => by
              obtain rfl : c = c' := by simpa using hc'
              exact ⟨hopen, hbound⟩⟩
          · simp only [stepEvent, h1, h2, if_true, if_false, hpl, if_neg]
            refine ⟨?_, by simp, ?_⟩
            · intro s hs
              rcases List.mem_append.mp hs with hs | hs
              · exact hb s hs
              · rcases List.mem_cons.mp hs with hs | hs
                · exact hs ▸ segDurOK_of_open c hopen
                · exact ha s hs
            · rintro c' hc'
              obtain rfl : (⟨e.payload_place_id, e.ts, none, none⟩ : StaySegment) = c' := by
                simpa using hc'
              exact ⟨rfl, hrest⟩
    · by_cases h3 : e.payload_event = "exit"
      · cases cur with
        | none =>
            simp only [stepEvent, h1, h2, h3, if_true, if_false]
            refine ⟨hb, ?_, by simp⟩
            intro s hs
            rcases List.mem_append.mp hs with hs | hs
            · exact ha s hs
            · rcases List.mem_singleton.mp hs with rfl
              exact segDurOK_degenerate _ _
        | some c =>
            obtain ⟨hopen, hle, hbound⟩ := hc c rfl
            by_cases hpl : c.place_id = e.payload_place_id
            · simp only [stepEvent, h1, h2, h3, if_true, if_false, hpl, if_pos]
              refine ⟨?_, by simp, by simp⟩
              intro s hs
              rcases List.mem_append.mp hs with hs | hs
              · exact hb s hs
              · rcases List.mem_cons.mp hs with hs | hs
                · exact hs ▸ segDurOK_close c e.ts hle
                · exact ha s hs
            · simp only [stepEvent, h1, h2, h3, if_true, if_false, hpl, if_neg]
              refine ⟨hb, ?_, ?_⟩
              · intro s hs
                rcases List.mem_append.mp hs with hs | hs
                · exact ha s hs
                · rcases List.mem_singleton.mp hs with rfl
                  exact segDurOK_degenerate _ _
              · rintro c' hc'
                obtain rfl : c = c' := by simpa using hc'
                exact ⟨hopen, hbound⟩
      · simp only [stepEvent, h1, h2, h3, if_false]
        exact ⟨hb, ha, fun c' hc' => ⟨(hc c' hc').1, (hc c' hc').2.2⟩⟩

/-- Scanning a timestamp-sorted list preserves the duration invariant of
every segment in view. -/
lemma scan_durOK (l : List RawEvent) :
    ∀ st : ScanState,
      List.Sorted tsLe l →
      (∀ s ∈ st.before, segDurOK s) →
      (∀ s ∈ st.after, segDurOK s) →
      (∀ c, st.cur = some c → c.exit_at = none ∧ ∀ e ∈ l, c.enter_at ≤ e.ts) →
      ∀ s ∈ viewSegments (l.foldl stepEvent st), segDurOK s := by
  induction l with
  | nil =>
      intro st _ hb ha hc s hs
      simp only [List.foldl_nil, viewSegments, List.mem_append] at hs
      rcases hs with (hs | hs) | hs
      · exact hb s hs
      · rcases hcur : st.cur with _ | c
        · rw [hcur] at hs; cases hs
        · rw [hcur] at hs
          have hseq : s = c := by simpa using hs
          subst hseq
          exact segDurOK_of_open _ (hc _ hcur).1
      · exact ha s hs
  | cons e l ih =>
      intro st hsort hb ha hc s hs
      rw [List.foldl_cons] at hs
      have hhead : ∀ b ∈ l, e.ts ≤ b.ts := fun b hbmem =>
        (List.sorted_cons.mp hsort).1 b hbmem
      have hstep := step_preserves_durOK st e l hb ha
        (fun c hcur => ⟨(hc c hcur).1, (hc c hcur).2 e (List.mem_cons_self e l),
          fun b hbmem => (hc c hcur).2 b (List.mem_cons_of_mem e hbmem)⟩)
        hhead
      exact ih (stepEvent st e) (List.sorted_cons.mp hsort).2
        hstep.1 hstep.2.1 hstep.2.2 s hs

/-- Lemma: `roundMinutes` on a non-negative duration agrees with rounding half
away from zero and is non-negative. -/
lemma roundMinutes_nonneg_spec (ms : Int) (h : 0 ≤ ms) :
    roundMinutes ms = roundHalfAwayMin ms ∧ 0 ≤ roundMinutes ms := by
  constructor
  · rw [roundHalfAwayMin, if_pos h, roundMinutes]
  · exact Int.fdiv_nonneg (by omega) (by omega)

/-- C3: every segment produced by `aggregateLocationEvents` with a non-null
`exit_at` has `duration_min` equal to the exit-minus-enter difference in
minutes rounded half away from zero, and that duration is non-negative. -/
theorem aggregate_duration_spec (events : List RawEvent) (s : StaySegment)
    (hs : s ∈ (aggregateLocationEvents events).segments) (t : Int)
    (ht : s.exit_at = some t) :
    s.duration_min = some (roundHalfAwayMin (t - s.enter_at)) ∧
    0 ≤ roundHalfAwayMin (t - s.enter_at) := by
  rw [aggregateLocationEvents] at hs
  by_cases hemp : (locationEventsOf events).isEmpty
  · rw [if_pos hemp] at hs
    cases hs
  · rw [if_neg hemp] at hs
    have hsorted : List.Sorted tsLe (locationEventsOf events) :=
      List.sorted_insertionSort tsLe _
    have hok := scan_durOK (locationEventsOf events) initState hsorted
      (by intro s hs; cases hs) (by intro s hs; cases hs)
      (by intro c hc; cases hc) s hs
    obtain ⟨hle, hdur⟩ := hok t ht
    have hnn : (0 : Int) ≤ t - s.enter_at := by omega
    obtain ⟨heq, hpos⟩ := roundMinutes_nonneg_spec (t - s.enter_at) hnn
    exact ⟨heq ▸ hdur, heq ▸ hpos⟩

/-- Witness for C3: the closed 30-minute `home` segment of an enter / exit
pair carries duration `30 = roundHalfAwayMin 1800000` and it is
non-negative. -/
theorem aggregate_duration_spec_witness :
    (⟨"home", 0, some 1800000, some 30⟩ : StaySegment) ∈
      (aggregateLocationEvents
        [⟨"aaa-1", "location", 0, "enter", "home"⟩,
         ⟨"aaa-2", "location", 1800000, "exit", "home"⟩]).segments ∧
    (⟨"home", 0, some 1800000, some 30⟩ : StaySegment).exit_at = some 1800000 ∧
    (⟨"home", 0, some 1800000, some 30⟩ : StaySegment).duration_min =
      some (roundHalfAwayMin (1800000 - 0)) ∧
    (0 : Int) ≤ roundHalfAwayMin (1800000 - 0) := by
  refine ⟨by decide, rfl, ?_, ?_⟩
  · exact (aggregate_duration_spec
      [⟨"aaa-1", "location", 0, "enter", "home"⟩,
       ⟨"aaa-2", "location", 1800000, "exit", "home"⟩]
      ⟨"home", 0, some 1800000, some 30⟩ (by decide) 1800000 rfl).1
  · exact (aggregate_duration_spec
      [⟨"aaa-1", "location", 0, "enter", "home"⟩,
       ⟨"aaa-2", "location", 1800000, "exit", "home"⟩]
      ⟨"home", 0, some 1800000, some 30⟩ (by decide) 1800000 rfl).2

/-! ## C2: open segments in the output -/

/-- One loop iteration keeps every segment pushed after the tracked one
closed, and the tracked segment itself open. -/
lemma step_after_closed (st : ScanState) (e : RawEvent)
    (ha : ∀ s ∈ st.after, s.exit_at ≠ none)
    (hc : ∀ c, st.cur = some c → c.exit_at = none) :
    (∀ s ∈ (stepEvent st e).after, s.exit_at ≠ none) ∧
    (∀ c, (stepEvent st e).cur = some c → c.exit_at = none) := by
  obtain ⟨bf, cur, af⟩ := st
  by_cases h1 : e.payload_event = "enter"
  · cases cur with
    | none =>
        simp only [stepEvent, h1, if_true]
        exact ⟨by simp, fun c hc' => by
          obtain rfl : (⟨e.payload_place_id, e.ts, none, none⟩ : StaySegment) = c := by
            simpa using hc'
          rfl⟩
    | some c =>
        simp only [stepEvent, h1, if_true]
        exact ⟨by simp, fun c' hc' => by
          obtain rfl : (⟨e.payload_place_id, e.ts, none, none⟩ : StaySegment) = c' := by
            simpa using hc'
          rfl⟩
  · by_cases h2 : e.payload_event = "dwell"
    · cases cur with
      | none =>
          simp only [stepEvent, h1, h2, if_true, if_false]
          exact ⟨by simp, fun c hc' => by
            obtain rfl : (⟨e.payload_place_id, e.ts, none, none⟩ : StaySegment) = c := by
              simpa using hc'
            rfl⟩
      | some c =>
          by_cases hpl : c.place_id = e.payload_place_id
          · simp only [stepEvent, h1, h2, if_true, if_false, hpl, if_pos]
            exact ⟨ha, hc⟩
          · simp only [stepEvent, h1, h2, if_true, if_false, hpl, if_neg]
            exact ⟨by simp, fun c' hc' => by
              obtain rfl : (⟨e.payload_place_id, e.ts, none, none⟩ : StaySegment) = c' := by
                simpa using hc'
              rfl⟩
    · by_cases h3 : e.payload_event = "exit"
      · cases cur with
        | none =>
            simp only [stepEvent, h1, h2, h3, if_true, if_false]
            refine ⟨?_, by simp⟩
            intro s hs
            rcases List.mem_append.mp hs with hs | hs
            · exact ha s hs
            · rcases List.mem_singleton.mp hs with rfl
              simp
        | some c =>
            by_cases hpl : c.place_id = e.payload_place_id
            · simp only [stepEvent, h1, h2, h3, if_true, if_false, hpl, if_pos]
              exact ⟨by simp, by simp⟩
            · simp only [stepEvent, h1, h2, h3, if_true, if_false, hpl, if_neg]
              refine ⟨?_, fun c' hc' => by
                obtain rfl : c = c' := by simpa using hc'
                exact hc c rfl⟩
              intro s hs
              rcases List.mem_append.mp hs with hs | hs
              · exact ha s hs
              · rcases List.mem_singleton.mp hs with rfl
                simp
      · simp only [stepEvent, h1, h2, h3, if_false]
        exact ⟨ha, hc⟩

/-- The whole scan keeps segments pushed after the tracked one closed, and
the tracked segment open. -/
lemma scan_after_closed (l : List RawEvent) :
    ∀ st : ScanState,
      (∀ s ∈ st.after, s.exit_at ≠ none) →
      (∀ c, st.cur = some c → c.exit_at = none) →
      (∀ s ∈ (l.foldl stepEvent st).after, s.exit_at ≠ none) ∧
      (∀ c, (l.foldl stepEvent st).cur = some c → c.exit_at = none) := by
  induction l with
  | nil => intro st ha hc; exact ⟨ha, hc⟩
  | cons e l ih =>
      intro st ha hc
      rw [List.foldl_cons]
      obtain ⟨ha', hc'⟩ := step_after_closed st e ha hc
      exact ih (stepEvent st e) ha' hc'

/-- Counterexample to C2 as stated: on the batch
`enter(home), dwell(office), exit(cafe)` the produced segment sequence
holds two open segments, and the first segment is open while the last one
is closed. -/
theorem aggregate_not_single_open :
    ((aggregateLocationEvents
      [⟨"d1", "location", 0, "enter", "home"⟩,
       ⟨"d2", "location", 600000, "dwell", "office"⟩,
       ⟨"d3", "location", 1200000, "exit", "cafe"⟩]).segments.countP
        (fun s => s.exit_at == none)) = 2 ∧
    ((aggregateLocationEvents
      [⟨"d1", "location", 0, "enter", "home"⟩,
       ⟨"d2", "location", 600000, "dwell", "office"⟩,
       ⟨"d3", "location", 1200000, "exit", "cafe"⟩]).segments.head?.map (·.exit_at)) =
      some none ∧
    ((aggregateLocationEvents
      [⟨"d1", "location", 0, "enter", "home"⟩,
       ⟨"d2", "location", 600000, "dwell", "office"⟩,
       ⟨"d3", "location", 1200000, "exit", "cafe"⟩]).segments.getLast?.map (·.exit_at)) =
      some (some 1200000) := by decide

/-- C2 (amended): the scan state carries at most one open segment — the
tracked `cur` — and when the scan ends with a tracked segment `c`, `c` is
open and is the last open segment of the output: the output is
`before ++ c :: after` with every segment of `after` closed. (The output
as a whole may contain further open segments abandoned by `dwell`
place-changes, and an unmatched exit may append a closed degenerate
segment after the open one, so the claim as stated fails.) -/
theorem scan_tracked_open_is_last_open (events : List RawEvent) (c : StaySegment)
    (hc : (scanLocation events).cur = some c) :
    (aggregateLocationEvents events).segments =
      (scanLocation events).before ++ c :: (scanLocation events).after ∧
    c.exit_at = none ∧
    ∀ s ∈ (scanLocation events).after, s.exit_at ≠ none := by
  have hinv := scan_after_closed (locationEventsOf events) initState
    (by intro s hs; cases hs) (by intro c' hc'; cases hc')
  have hopen : c.exit_at = none := hinv.2 c hc
  refine ⟨?_, hopen, hinv.1⟩
  have hne : (locationEventsOf events).isEmpty = false := by
    rcases hloc : locationEventsOf events with _ | ⟨x, xs⟩
    · rw [scanLocation, hloc] at hc
      cases hc
    · rfl
  simp only [aggregateLocationEvents, hne, Bool.false_eq_true, if_false]
  simp [viewSegments, hc]

/-- Witness for the amended C2: a single `enter(office)` batch ends with a
tracked open segment which is the last (and only) segment of the output. -/
theorem scan_tracked_open_is_last_open_witness :
    (scanLocation [⟨"b1", "location", 0, "enter", "office"⟩]).cur =
      some ⟨"office", 0, none, none⟩ ∧
    (aggregateLocationEvents [⟨"b1", "location", 0, "enter", "office"⟩]).segments =
      (scanLocation [⟨"b1", "location", 0, "enter", "office"⟩]).before ++
        ⟨"office", 0, none, none⟩ ::
          (scanLocation [⟨"b1", "location", 0, "enter", "office"⟩]).after :=
  ⟨by decide,
    (scan_tracked_open_is_last_open [⟨"b1", "location", 0, "enter", "office"⟩]
      ⟨"office", 0, none, none⟩ (by decide)).1⟩

/-! ## C8: markProcessed -/

/-- The per-row update applied by `markProcessed` changes a row exactly
when the row is selected. -/
lemma markProcessed_update_ne_iff (ids : List String) (now : Int) (r : EventRow) :
    ((if pendingIn ids r then { r with processed_at := some now } else r) ≠ r) ↔
      pendingIn ids r := by
  obtain ⟨id, pr⟩ := r
  by_cases h : pendingIn ids ⟨id, pr⟩
  · have hpr : pr = none := h.2
    subst hpr
    simp [if_pos h, h]
  · simp [if_neg h, h]

/-- A row that went through the `markProcessed` update is never selected
again. -/
lemma markProcessed_update_not_pending (ids : List String) (now : Int) (r : EventRow) :
    ¬ pendingIn ids
      (if pendingIn ids r then { r with processed_at := some now } else r) := by
  by_cases h : pendingIn ids r
  · rw [if_pos h]
    rintro ⟨-, hnone⟩
    cases hnone
  · rw [if_neg h]
    exact h

/-- C8: `markProcessed` only transitions rows whose `processed_at` is null
(every other row is returned unchanged), the reported count is the number
of rows actually changed, and a second invocation with the same ids is a
no-op returning count `0` with every row unchanged. -/
theorem markProcessed_spec (ids : List String) (now now2 : Int)
    (store : List EventRow) :
    (markProcessed ids now store).1.length = store.length ∧
    (∀ p ∈ store.zip (markProcessed ids now store).1,
      (¬ pendingIn ids p.1 → p.2 = p.1) ∧
      (pendingIn ids p.1 → p.2 = { p.1 with processed_at := some now })) ∧
    (markProcessed ids now store).2 =
      (store.zip (markProcessed ids now store).1).countP
        (fun p => decide (p.2 ≠ p.1)) ∧
    markProcessed ids now2 (markProcessed ids now store).1 =
      ((markProcessed ids now store).1, 0) := by
  refine ⟨by simp [markProcessed], ?_, ?_, ?_⟩
  · intro p hp
    induction store with
    | nil => cases hp
    | cons r rest ih =>
        simp only [markProcessed, List.map_cons, List.zip_cons_cons,
          List.mem_cons] at hp
        rcases hp with rfl | hp
        · constructor
          · intro hnp
            simp [if_neg hnp]
          · intro hp'
            simp [if_pos hp']
        · exact ih hp
  · induction store with
    | nil => simp [markProcessed]
    | cons r rest ih =>
        simp only [markProcessed, List.map_cons, List.countP_cons,
          List.zip_cons_cons] at ih ⊢
        rw [ih]
        by_cases h : pendingIn ids r
        · have hne := (markProcessed_update_ne_iff ids now r).mpr h
          rw [if_pos h] at hne
          simp [h, hne]
        · have heq : (if pendingIn ids r then { r with processed_at := some now }
              else r) = r := if_neg h
          simp [h, heq]
  · have hmap : ((markProcessed ids now store).1.map fun r =>
        if pendingIn ids r then { r with processed_at := some now2 } else r) =
        (markProcessed ids now store).1 := by
      rw [markProcessed, List.map_map]
      apply List.map_congr_left
      intro r _
      exact if_neg (markProcessed_update_not_pending ids now r)
    have hcount : ((markProcessed ids now store).1.countP
        fun r => decide (pendingIn ids r)) = 0 := by
      rw [List.countP_eq_zero]
      intro r hr
      rcases List.mem_map.mp hr with ⟨r', -, rfl⟩
      simpa using markProcessed_update_not_pending ids now r'
    rw [markProcessed, markProcessed]
    exact Prod.ext hmap hcount

/-- Witness for C8: marking `"a"` processed transitions only the one
pending `"a"` row (count 1) and a second call reports count 0 and changes
nothing. -/
theorem markProcessed_spec_witness :
    markProcessed ["a"] 5 [⟨"a", none⟩, ⟨"b", none⟩, ⟨"a", some 1⟩] =
      ([⟨"a", some 5⟩, ⟨"b", none⟩, ⟨"a", some 1⟩], 1) ∧
    markProcessed ["a"] 9
        (markProcessed ["a"] 5 [⟨"a", none⟩, ⟨"b", none⟩, ⟨"a", some 1⟩]).1 =
      ((markProcessed ["a"] 5 [⟨"a", none⟩, ⟨"b", none⟩, ⟨"a", some 1⟩]).1, 0) :=
  ⟨by decide,
    (markProcessed_spec ["a"] 5 9 [⟨"a", none⟩, ⟨"b", none⟩, ⟨"a", some 1⟩]).2.2.2⟩

/-! ## C7: envelope validator -/

/-- Counterexample to C7 as stated: a body whose `event_id` is not a UUID
(it is a one-element array holding a UUID-shaped string, hence malformed
under the spec rule "`event_id` must match the UUID shape") for which the
validator nevertheless reports no violation at all, because the regex test
coerces the array to its joined string. -/
theorem validateEventEnvelope_accepts_non_string_event_id :
    validateEventEnvelope (fun _ => true) smuggledBody = [] ∧
    getField smuggledBody "event_id" =
      .arr [.str "550e8400-e29b-41d4-a716-446655440000"] ∧
    eventIdIsUuidString (getField smuggledBody "event_id") = false := by
  refine ⟨?_, rfl, rfl⟩
  decide

/-- C7 (amended): the validator is total and returns the empty violation
list exactly when every envelope rule passes, where the `event_id` rule is
evaluated on the JavaScript string coercion of the field (so certain
non-string values pass it); for every input failing any rule it returns a
non-empty violation list. -/
theorem validateEventEnvelope_empty_iff (dateParses : String → Bool)
    (body : JsValue) :
    validateEventEnvelope dateParses body = [] ↔
      envelopeRulesOk dateParses body = true := by
  cases body with
  | null => simp [validateEventEnvelope, envelopeRulesOk, isPlainObject]
  | undefined => simp [validateEventEnvelope, envelopeRulesOk, isPlainObject]
  | bool b => simp [validateEventEnvelope, envelopeRulesOk, isPlainObject]
  | num n => simp [validateEventEnvelope, envelopeRulesOk, isPlainObject]
  | str s => simp [validateEventEnvelope, envelopeRulesOk, isPlainObject]
  | arr xs => simp [validateEventEnvelope, envelopeRulesOk, isPlainObject]
  | obj fields =>
      simp only [validateEventEnvelope, envelopeRulesOk, getField, isPlainObject,
        Bool.true_and, Bool.and_eq_true, List.append_eq_nil]
      split_ifs <;> simp_all

/-! ## C10: order insensitivity under distinct timestamps -/

/-- Strict timestamp order. -/
def tsLt (a b : RawEvent) : Prop := a.ts < b.ts

instance : IsAntisymm RawEvent tsLt :=
  ⟨fun _ _ h₁ h₂ => absurd (lt_trans h₁ h₂) (lt_irrefl _)⟩

/-- A `tsLe`-sorted list with pairwise distinct timestamps is strictly
sorted. -/
lemma sorted_tsLt_of_nodup (l : List RawEvent) (hs : List.Sorted tsLe l)
    (hn : (l.map (·.ts)).Nodup) : List.Sorted tsLt l := by
  have hne : l.Pairwise fun a b => a.ts ≠ b.ts := by
    rw [List.Nodup, List.pairwise_map] at hn
    exact hn
  exact (hs.and hne).imp fun h => lt_of_le_of_ne h.1 h.2

/-- Two permuted batches whose location events have pairwise distinct
timestamps produce the same sorted location-event list. -/
lemma locationEventsOf_perm_eq (l₁ l₂ : List RawEvent) (hperm : l₁.Perm l₂)
    (hnodup : ((l₁.filter fun e => e.type == "location").map (·.ts)).Nodup) :
    locationEventsOf l₁ = locationEventsOf l₂ := by
  have hpf : (l₁.filter fun e => e.type == "location").Perm
      (l₂.filter fun e => e.type == "location") := hperm.filter _
  have hp₁ : (locationEventsOf l₁).Perm (l₁.filter fun e => e.type == "location") :=
    List.perm_insertionSort tsLe _
  have hp₂ : (locationEventsOf l₂).Perm (l₂.filter fun e => e.type == "location") :=
    List.perm_insertionSort tsLe _
  have hperm12 : (locationEventsOf l₁).Perm (locationEventsOf l₂) :=
    (hp₁.trans hpf).trans hp₂.symm
  have hn₁ : ((locationEventsOf l₁).map (·.ts)).Nodup :=
    ((hp₁.map (·.ts)).nodup_iff).mpr hnodup
  have hn₂ : ((locationEventsOf l₂).map (·.ts)).Nodup :=
    ((hperm12.map (·.ts)).nodup_iff).mp hn₁
  exact List.eq_of_perm_of_sorted hperm12
    (sorted_tsLt_of_nodup _ (List.sorted_insertionSort tsLe _) hn₁)
    (sorted_tsLt_of_nodup _ (List.sorted_insertionSort tsLe _) hn₂)

/-- C10: for two permuted input batches whose location events carry
pairwise distinct timestamps, `aggregateLocationEvents` returns identical
results — the same segments in the same order and the same `eventIds` in
the same order. -/
theorem aggregate_perm_invariant (l₁ l₂ : List RawEvent) (hperm : l₁.Perm l₂)
    (hnodup : ((l₁.filter fun e => e.type == "location").map (·.ts)).Nodup) :
    aggregateLocationEvents l₁ = aggregateLocationEvents l₂ := by
  have h := locationEventsOf_perm_eq l₁ l₂ hperm hnodup
  simp only [aggregateLocationEvents, scanLocation, h]

/-- Witness for C10: swapping the arrival order of two location events with
distinct timestamps leaves the aggregation result unchanged. -/
theorem aggregate_perm_invariant_witness :
    ([⟨"p1", "location", 1800000, "exit", "home"⟩,
      ⟨"p2", "location", 0, "enter", "home"⟩] : List RawEvent).Perm
      [⟨"p2", "location", 0, "enter", "home"⟩,
       ⟨"p1", "location", 1800000, "exit", "home"⟩] ∧
    ((([⟨"p1", "location", 1800000, "exit", "home"⟩,
        ⟨"p2", "location", 0, "enter", "home"⟩] : List RawEvent).filter
          fun e => e.type == "location").map (·.ts)).Nodup ∧
    aggregateLocationEvents
        [⟨"p1", "location", 1800000, "exit", "home"⟩,
         ⟨"p2", "location", 0, "enter", "home"⟩] =
      aggregateLocationEvents
        [⟨"p2", "location", 0, "enter", "home"⟩,
         ⟨"p1", "location", 1800000, "exit", "home"⟩] :=
  ⟨List.Perm.swap _ _ _, by decide,
    aggregate_perm_invariant _ _ (List.Perm.swap _ _ _) (by decide)⟩

end EventSummary
